import Mathlib

/-!
Shallow embedding of the `system-index` repository (Rust) for verification.

The embedding covers `src/models/mod.rs` (byte/uptime formatting, the
public-IP fallback probe, the bandwidth probe) and `src/tui/mod.rs`
(application state machine, terminal lifecycle of `App::run`, and the
derived-value computations of the renderers), plus the memory computations
of `src/main.rs`.

Modelling conventions:
* Rust `u64`/`u32`/`usize` values are `Nat`; an unchecked Rust subtraction
  (which panics on underflow) is `checkedSub`, returning `none` on the
  would-be panic, while `saturating_sub` is Lean's saturating `Nat` `-`.
* In `format_bytes` every `f64` division is by 1024 (an exact power of
  two), so for all byte counts below 2^53 the rendered value coincides
  exactly with the `f64` computation, and the selected unit coincides for
  all inputs.
* The derived usage percentages evaluate `used / total * 100` in `f64`;
  this is modelled bit-exactly by `roundQ`, an executable implementation
  of IEEE-754 binary64 round-to-nearest (ties to even) over exact
  rationals, applied at each of the three rounding operations (the two
  integer-to-f64 casts fused into one rounding each, the division, the
  multiplication by the exact constant 100.0), followed by the truncating
  saturating `as u32` cast.
* Network I/O is modelled by an oracle mapping each endpoint URL to its
  observed outcome; time is an explicit rational parameter.
-/

/-- Checked natural subtraction: models an unchecked Rust `u64`/`usize`
subtraction, where underflow panics; `none` models the panic. -/
def checkedSub (a b : Nat) : Option Nat :=
  if b ≤ a then some (a - b) else none

/-- Decimal digit character for a value `d < 10`. -/
def decChar (d : Nat) : Char := Char.ofNat (48 + d)

/-- Digit-accumulator loop producing the decimal digits of `n` (most
significant first) in front of `acc`; models Rust's integer `Display`.
The fuel bounds the number of digits; `n + 1` always suffices. -/
def decAux : Nat → Nat → List Char → List Char
  | 0, _, acc => acc
  | fuel + 1, n, acc =>
    if n < 10 then decChar n :: acc
    else decAux fuel (n / 10) (decChar (n % 10) :: acc)

/-- Decimal rendering of a natural number, as Rust `format!` renders
unsigned integers. -/
def decRepr (n : Nat) : String := String.mk (decAux (n + 1) n [])

/-- Fixed two-decimal rendering of the exact nonnegative value
`num / den` (`den > 0`): models Rust's `format!` with precision 2 on an
`f64`, which rounds the value to two decimals, ties to even. -/
def format2 (num den : Nat) : String :=
  let scaled := num * 100
  let q := scaled / den
  let r := scaled % den
  let n := if 2 * r < den then q
           else if den < 2 * r then q + 1
           else if q % 2 = 0 then q else q + 1
  let frac := n % 100
  decRepr (n / 100) ++ "." ++
    (if frac < 10 then "0" ++ decRepr frac else decRepr frac)

/-- `BYTES_PER_UNIT` from `src/models/mod.rs` line 5 (as a natural; the
source value is the float `1024.0`). -/
def BYTES_PER_UNIT : Nat := 1024

/-- The `UNITS` array of `SystemInfo::format_bytes`. -/
def UNITS : List String := ["B", "KB", "MB", "GB", "TB"]

/-- The `while size >= BYTES_PER_UNIT && unit_index < UNITS.len() - 1` loop
of `SystemInfo::format_bytes` (`src/models/mod.rs` lines 131-137). The
`f64` variable `size` equals `bytes / 1024 ^ unit_index` exactly at every
iteration (dividing an `f64` by 1024 only decrements its exponent), so the
loop guard `size >= 1024` is `1024 ^ (unit_index + 1) <= bytes`; the loop
is embedded tracking `unit_index` only, with fuel
`UNITS.len() - 1 - unit_index`, the number of remaining allowed unit
promotions. -/
def fbLoop (bytes : Nat) : Nat → Nat → Nat
  | idx, 0 => idx
  | idx, fuel + 1 =>
    if BYTES_PER_UNIT ^ (idx + 1) ≤ bytes then fbLoop bytes (idx + 1) fuel
    else idx

/-- The unit index `format_bytes` selects for a byte count. -/
def unit_index (bytes : Nat) : Nat := fbLoop bytes 0 (UNITS.length - 1)

/-- `SystemInfo::format_bytes` (`src/models/mod.rs` lines 129-140): the
final `size` is exactly `bytes / 1024 ^ unit_index`, rendered with two
decimals. Exact for every byte count below `2^53` (where `bytes as f64` is
exact), and the chosen unit is exact for all byte counts. -/
def format_bytes (bytes : Nat) : String :=
  let i := unit_index bytes
  format2 bytes (BYTES_PER_UNIT ^ i) ++ " " ++ UNITS.getD i "B"

/-- `SystemInfo::format_uptime` (`src/models/mod.rs` lines 143-158). -/
def format_uptime (seconds : Nat) : String :=
  let days := seconds / 86400
  let hours := (seconds % 86400) / 3600
  let minutes := (seconds % 3600) / 60
  let secs := seconds % 60
  if days > 0 then
    decRepr days ++ "d " ++ decRepr hours ++ "h " ++ decRepr minutes ++ "m " ++
      decRepr secs ++ "s"
  else if hours > 0 then
    decRepr hours ++ "h " ++ decRepr minutes ++ "m " ++ decRepr secs ++ "s"
  else if minutes > 0 then
    decRepr minutes ++ "m " ++ decRepr secs ++ "s"
  else
    decRepr secs ++ "s"

/-- The `services` array of `SystemInfo::get_public_ip`
(`src/models/mod.rs` lines 168-172), in declared order. -/
def services : List String :=
  ["https://api.ipify.org", "https://ifconfig.me/ip", "https://icanhazip.com"]

/-- The `for service in &services` loop of `SystemInfo::get_public_ip`
(`src/models/mod.rs` lines 174-188). The oracle maps each endpoint URL to
its observed behaviour: `none` for a client-build error, connection error,
timeout, or unreadable body; `some body` for a response whose text was
read as `body`. Returns the function result together with the list of
endpoints contacted, in contact order. -/
def getPublicIpAux (oracle : String → Option String) :
    List String → Option String × List String
  | [] => (none, [])
  | s :: rest =>
    match oracle s with
    | some body =>
      let ip := body.trim
      if ip.isEmpty then
        let r := getPublicIpAux oracle rest
        (r.1, s :: r.2)
      else (some ip, [s])
    | none =>
      let r := getPublicIpAux oracle rest
      (r.1, s :: r.2)

/-- `SystemInfo::get_public_ip` (`src/models/mod.rs` lines 166-189),
instrumented with the list of endpoints contacted. -/
def get_public_ip (oracle : String → Option String) : Option String × List String :=
  getPublicIpAux oracle services

/-- Spec-side description of one endpoint's contribution: the successful
trimmed body, if any. Written from the spec's words ("returns the first
non-empty, trimmed response body"), to be compared with `get_public_ip`. -/
def firstHit (b : Option String) : Option String :=
  match b with
  | none => none
  | some body =>
    let t := body.trim
    if t.isEmpty then none else some t

/-- Spec-side description of the public-IP fallback protocol over the three
declared endpoints with behaviours `b1`, `b2`, `b3`: the first non-empty
trimmed body wins, later endpoints are not contacted, and all three are
contacted when none succeeds. Written from the spec's words, to be compared
with `get_public_ip`. -/
def publicIpSpec (b1 b2 b3 : Option String) : Option String × List String :=
  match firstHit b1 with
  | some t => (some t, ["https://api.ipify.org"])
  | none =>
    match firstHit b2 with
    | some t => (some t, ["https://api.ipify.org", "https://ifconfig.me/ip"])
    | none =>
      match firstHit b3 with
      | some t =>
        (some t, ["https://api.ipify.org", "https://ifconfig.me/ip",
          "https://icanhazip.com"])
      | none =>
        (none, ["https://api.ipify.org", "https://ifconfig.me/ip",
          "https://icanhazip.com"])

/-- Observed outcome of one bandwidth-probe download in
`SystemInfo::benchmark_bandwidth`: `reqErr` models a client-build or send
error (including timeout), `bodyErr` a response whose bytes could not be
read, and `success bytes elapsedSecs` a fully read body of `bytes` bytes
with the measured elapsed time in seconds. -/
inductive DlOutcome where
  | reqErr : DlOutcome
  | bodyErr : DlOutcome
  | success : Nat → ℚ → DlOutcome

/-- The `test_urls` array of `SystemInfo::benchmark_bandwidth`
(`src/models/mod.rs` lines 194-196). -/
def test_urls : List String := ["https://speed.cloudflare.com/__down?bytes=1000000"]

/-- The `for url in &test_urls` loop of `SystemInfo::benchmark_bandwidth`
(`src/models/mod.rs` lines 198-221): a request error or body error falls
through to the next URL, as does a zero elapsed time; a success with
positive elapsed time returns the Mbps value. -/
def benchAux (oracle : String → DlOutcome) : List String → Option ℚ
  | [] => none
  | url :: rest =>
    match oracle url with
    | DlOutcome.reqErr => benchAux oracle rest
    | DlOutcome.bodyErr => benchAux oracle rest
    | DlOutcome.success bytes elapsed =>
      if 0 < elapsed then some ((bytes : ℚ) * 8 / (elapsed * 1000000))
      else benchAux oracle rest

/-- `SystemInfo::benchmark_bandwidth` (`src/models/mod.rs` lines 192-223). -/
def benchmark_bandwidth (oracle : String → DlOutcome) : Option ℚ :=
  benchAux oracle test_urls

/-- A download oracle whose single download succeeds instantly but with an
empty (zero-byte) body: a concrete environment for `benchmark_bandwidth`. -/
def zeroByteOracle : String → DlOutcome := fun _ => DlOutcome.success 0 1

/-- `PROGRESS_BAR_WIDTH` (`src/tui/mod.rs` line 19). -/
def PROGRESS_BAR_WIDTH : Nat := 50

/-- The `Tab` enumeration (`src/tui/mod.rs` lines 30-35). -/
inductive Tab where
  | Overview : Tab
  | Memory : Tab
  | Disks : Tab
  | Network : Tab
deriving DecidableEq

/-- The `App` state (`src/tui/mod.rs` lines 22-27). `SystemInfo::collect`
is an external effect; snapshots are abstracted to the serial number of
the `collect()` call that produced them, and `collect_count` tracks how
many `collect()` invocations have been performed in total. `Instant`
timestamps are rationals. -/
structure App where
  system_info : Nat
  collect_count : Nat
  last_refresh : ℚ
  status_message : String
  current_tab : Tab
deriving DecidableEq

/-- `App::new` (`src/tui/mod.rs` lines 38-45), constructed at time `t0`:
one `collect()` call, welcome status, Overview tab. -/
def App.new (t0 : ℚ) : App :=
  { system_info := 1
    collect_count := 1
    last_refresh := t0
    status_message := "Welcome to System Index! Press \x27h\x27 for help, \x27q\x27 to quit."
    current_tab := Tab.Overview }

/-- `App::refresh` (`src/tui/mod.rs` lines 130-133) at time `now`: a new
`collect()` call replaces the snapshot and resets `last_refresh`. -/
def refreshFn (a : App) (now : ℚ) : App :=
  { a with
    system_info := a.collect_count + 1
    collect_count := a.collect_count + 1
    last_refresh := now }

/-- Key events as dispatched by `App::handle_input`: a character key, or
any other `KeyCode` variant (all of which hit the catch-all arm). -/
inductive KeyCode where
  | char : Char → KeyCode
  | otherKey : KeyCode
deriving DecidableEq

/-- `App::handle_input` (`src/tui/mod.rs` lines 98-128) at time `now`
(the time `refresh` would record). Returns the `Ok(quit)` flag and the
updated state. -/
def handle_input (a : App) (now : ℚ) : KeyCode → Bool × App
  | KeyCode.otherKey => (false, a)
  | KeyCode.char c =>
    if c = 'q' then (true, a)
    else if c = 'h' then
      (false, { a with status_message :=
        "Keys: q=quit, r=refresh, 1=overview, 2=memory, 3=disks, 4=network" })
    else if c = 'r' then
      (false, { refreshFn a now with status_message := "System information refreshed!" })
    else if c = '1' then
      (false, { a with current_tab := Tab.Overview, status_message := "Showing: Overview" })
    else if c = '2' then
      (false, { a with current_tab := Tab.Memory, status_message := "Showing: Memory" })
    else if c = '3' then
      (false, { a with current_tab := Tab.Disks, status_message := "Showing: Disks" })
    else if c = '4' then
      (false, { a with current_tab := Tab.Network, status_message := "Showing: Network" })
    else (false, a)

/-- The auto-refresh step of `App::run_app` (`src/tui/mod.rs` lines 82-84):
refresh exactly when strictly more than 2 seconds elapsed since
`last_refresh`. -/
def auto_refresh_step (a : App) (now : ℚ) : App :=
  if 2 < now - a.last_refresh then refreshFn a now else a

/-- The input-dispatch loop of `App::run_app` (`src/tui/mod.rs` lines
86-92) applied to a supplied key sequence, with no auto-refresh tick firing
in between (the scenario of the spec): keys are handled in order and the
loop breaks when `handle_input` returns `true`. Returns whether the loop
exited via the quit flag, and the final state. -/
def process (a : App) (now : ℚ) : List KeyCode → Bool × App
  | [] => (false, a)
  | k :: rest =>
    let r := handle_input a now k
    if r.1 then (true, r.2) else process r.2 now rest

/-- The tab `App::handle_input` selects for digit keys (arms `'1'`-`'4'`,
`src/tui/mod.rs` lines 109-124). -/
def tabOfDigit (c : Char) : Tab :=
  if c = '1' then Tab.Overview
  else if c = '2' then Tab.Memory
  else if c = '3' then Tab.Disks
  else Tab.Network

/-- The status message `App::handle_input` sets for digit keys. -/
def tabMsg (c : Char) : String :=
  if c = '1' then "Showing: Overview"
  else if c = '2' then "Showing: Memory"
  else if c = '3' then "Showing: Disks"
  else "Showing: Network"

/-- Round `num / den` to the nearest integer, ties to even (`den > 0`):
the significand-rounding step of IEEE-754 round-to-nearest-even. -/
def rne (num den : Nat) : Nat :=
  let q := num / den
  let r := num % den
  if 2 * r < den then q
  else if den < 2 * r then q + 1
  else if q % 2 = 0 then q else q + 1

/-- Fueled floor-log2 on naturals (structurally recursive so it reduces in
the kernel); fuel `n` suffices for input `n`. -/
def log2F : Nat → Nat → Nat
  | 0, _ => 0
  | fuel + 1, n => if n ≤ 1 then 0 else log2F fuel (n / 2) + 1

/-- `⌊log2 n⌋` for `n ≥ 1`. -/
def log2N (n : Nat) : Nat := log2F n n

/-- Decides `2 ^ t ≤ a / b` for naturals `a`, `b ≥ 1` and an integer
exponent `t`, by cross-multiplying on the appropriate side. -/
def pow2leB (a b : Nat) (t : Int) : Bool :=
  if 0 ≤ t then decide (b * 2 ^ t.toNat ≤ a) else decide (b ≤ a * 2 ^ (-t).toNat)

/-- `⌊log2 (a / b)⌋` for `a, b ≥ 1`: the candidate
`⌊log2 a⌋ - ⌊log2 b⌋` is correct or one too large. -/
def flog2 (a b : Nat) : Int :=
  let k0 : Int := (log2N a : Int) - (log2N b : Int)
  if pow2leB a b k0 then k0 else k0 - 1

/-- Significand of `a / b` rounded to 53 bits, before carry
normalization: `a / b` is scaled by `2 ^ (52 - ⌊log2 (a / b)⌋)` into
`[2 ^ 52, 2 ^ 53)` and rounded to the nearest integer, ties to even. -/
def mPre (a b : Nat) : Nat :=
  let e : Int := flog2 a b - 52
  if 0 ≤ e then rne a (b * 2 ^ e.toNat) else rne (a * 2 ^ (-e).toNat) b

/-- IEEE-754 binary64 rounding (round to nearest, ties to even) of the
positive rational `a / b`, as a significand-exponent pair `(m, e)` of
value `m * 2 ^ e` with `2 ^ 52 ≤ m < 2 ^ 53`. Subnormal and overflow
handling is omitted: every value rounded in this development is a u64, a
quotient of two rounded u64s, or such a quotient times 100, all of which
lie well inside the binary64 normal range. -/
def roundQ (a b : Nat) : Nat × Int :=
  let e : Int := flog2 a b - 52
  if mPre a b = 2 ^ 53 then (2 ^ 52, e + 1) else (mPre a b, e)

/-- Exact rational value of a significand-exponent pair. -/
def dval (p : Nat × Int) : ℚ := (p.1 : ℚ) * 2 ^ p.2

/-- Rust `as u32` applied to a nonnegative finite f64 of value
`m * 2 ^ e`: truncate toward zero and saturate at `u32::MAX`. -/
def truncSat (p : Nat × Int) : Nat :=
  let v := if 0 ≤ p.2 then p.1 * 2 ^ p.2.toNat else p.1 / 2 ^ (-p.2).toNat
  min v (2 ^ 32 - 1)

/-- Derived usage percentage: `(used as f64 / total as f64 * 100.0) as u32`
guarded by `if total > 0` (`src/tui/mod.rs` lines 248-252, 257-261,
331-335), modelled exactly over the rationals: the u64-to-f64 casts, the
f64 division, and the f64 multiplication by the exact constant 100.0 each
round to nearest (ties to even), and the final `as u32` truncates toward
zero, saturating at `u32::MAX`. Multiplying an f64 by a power of two only
shifts its exponent inside the normal range, so each rounding is performed
by `roundQ` on the significands and the exponents are added separately;
`used = 0` gives the exact float 0.0 throughout and hence percentage 0. -/
def usage_percent (used total : Nat) : Nat :=
  if 0 < total then
    if used = 0 then 0
    else
      let fu := roundQ used 1
      let ft := roundQ total 1
      let q0 := roundQ fu.1 ft.1
      let q : Nat × Int := (q0.1, q0.2 + fu.2 - ft.2)
      let p0 := roundQ (q.1 * 100) 1
      let p : Nat × Int := (p0.1, p0.2 + q.2)
      truncSat p
  else 0

/-- `App::create_progress_bar` (`src/tui/mod.rs` lines 318-322): `filled`
is `percent / 2`, and `PROGRESS_BAR_WIDTH - filled` is an unchecked `usize`
subtraction, so `none` models its underflow panic. -/
def create_progress_bar (percent : Nat) : Option String :=
  let filled := percent / 2
  match checkedSub PROGRESS_BAR_WIDTH filled with
  | none => none
  | some empty =>
    some (String.mk (List.replicate filled '█' ++ List.replicate empty '░'))

/-- The derived values `App::render_memory` computes (`src/tui/mod.rs`
lines 242-288): free memory by unchecked subtraction, memory and swap
usage percentages, free swap by `saturating_sub`, and the two usage bars.
`none` models a panic in any of these computations. -/
def render_memory_data (tm um ts us : Nat) :
    Option (Nat × Nat × Nat × Nat × String × String) :=
  match checkedSub tm um with
  | none => none
  | some free_mem =>
    let mem_pct := usage_percent um tm
    let free_swap := ts - us
    let swap_pct := usage_percent us ts
    match create_progress_bar mem_pct, create_progress_bar swap_pct with
    | some bar1, some bar2 => some (free_mem, mem_pct, free_swap, swap_pct, bar1, bar2)
    | _, _ => none

/-- The derived values `App::render_disks` computes per disk
(`src/tui/mod.rs` lines 329-357): used space by unchecked subtraction, the
usage percentage, and the usage bar. `none` models a panic. -/
def render_disk_data (total available : Nat) : Option (Nat × Nat × String) :=
  match checkedSub total available with
  | none => none
  | some used =>
    let pct := usage_percent used total
    match create_progress_bar pct with
    | none => none
    | some bar => some (used, pct, bar)

/-- The free-memory value `App::render_overview` computes by unchecked
subtraction (`src/tui/mod.rs` line 212). -/
def render_overview_free (tm um : Nat) : Option Nat := checkedSub tm um

/-- The free-memory and free-swap values `print_memory_info` computes
(`src/main.rs` lines 118 and 127): unchecked subtraction for memory,
`saturating_sub` for swap. -/
def print_memory_frees (tm um ts us : Nat) : Option (Nat × Nat) :=
  match checkedSub tm um with
  | none => none
  | some f => some (f, ts - us)

/-- A concrete endpoint environment: the first and third IP-echo endpoints
fail, the second answers with a body carrying surrounding whitespace. -/
def wOracle : String → Option String :=
  fun s => if s = "https://ifconfig.me/ip" then some " 203.0.113.7\n" else none

/-- A concrete download environment: the bandwidth probe reads a full
1000000-byte body in 2 seconds. -/
def wDlOracle : String → DlOutcome := fun _ => DlOutcome.success 1000000 2

/-- The terminal release calls of `App::run` (`src/tui/mod.rs` lines
66-72): `disable_raw_mode()`, the single `execute!` carrying
`LeaveAlternateScreen` and `DisableMouseCapture`, and `show_cursor()`. -/
inductive TermStep where
  | disableRaw : TermStep
  | leaveAltDisableMouse : TermStep
  | showCursor : TermStep
deriving DecidableEq

/-- `App::run` after the loop body (`src/tui/mod.rs` lines 63-74): `body`
is the result of `run_app`, and `t1`, `t2`, `t3` the results of the three
release calls, each followed by `?` in the source. Returns the value
`App::run` returns together with the list of release calls performed, in
order. -/
def appRunTeardown {ε : Type} (body t1 t2 t3 : Except ε Unit) :
    Except ε Unit × List TermStep :=
  match t1 with
  | Except.error e => (Except.error e, [TermStep.disableRaw])
  | Except.ok _ =>
    match t2 with
    | Except.error e =>
      (Except.error e, [TermStep.disableRaw, TermStep.leaveAltDisableMouse])
    | Except.ok _ =>
      match t3 with
      | Except.error e =>
        (Except.error e,
          [TermStep.disableRaw, TermStep.leaveAltDisableMouse, TermStep.showCursor])
      | Except.ok _ =>
        (body,
          [TermStep.disableRaw, TermStep.leaveAltDisableMouse, TermStep.showCursor])

/-! ### Helper lemmas -/

theorem decChar_isDigit (d : Nat) (hd : d < 10) : (decChar d).isDigit = true := by
  interval_cases d <;> decide

theorem decAux_mem (fuel n : Nat) (acc : List Char) (c : Char)
    (hc : c ∈ decAux fuel n acc) : c.isDigit = true ∨ c ∈ acc := by
  induction fuel generalizing n acc with
  | zero => exact Or.inr hc
  | succ fuel ih =>
    simp only [decAux] at hc
    by_cases hn : n < 10
    · rw [if_pos hn] at hc
      rcases List.mem_cons.mp hc with rfl | h
      · exact Or.inl (decChar_isDigit n hn)
      · exact Or.inr h
    · rw [if_neg hn] at hc
      rcases ih _ _ hc with h | h
      · exact Or.inl h
      · rcases List.mem_cons.mp h with rfl | h2
        · exact Or.inl (decChar_isDigit _ (Nat.mod_lt _ (by omega)))
        · exact Or.inr h2

theorem not_mem_decRepr (c : Char) (n : Nat) (hc : ¬ c.isDigit = true) :
    c ∉ (decRepr n).data := by
  intro hmem
  rcases decAux_mem (n + 1) n [] c hmem with h | h
  · exact hc h
  · simp at h

theorem mem_data_append (c : Char) (x y : String) :
    c ∈ (x ++ y).data ↔ c ∈ x.data ∨ c ∈ y.data := by
  rw [String.data_append, List.mem_append]

theorem rne_one (num : Nat) : rne num 1 = num := by
  simp [rne, Nat.mod_one]

theorem rne_le (num den c : Nat) (hden : 0 < den) (h : num ≤ den * c) :
    rne num den ≤ c := by
  have hq : num / den ≤ c := by
    have h2 : num / den ≤ den * c / den := Nat.div_le_div_right h
    rwa [Nat.mul_div_cancel_left c hden] at h2
  rcases Nat.lt_or_ge (num / den) c with hlt | hge
  · simp only [rne]
    split_ifs <;> omega
  · have hqc : num / den = c := le_antisymm hq hge
    have hdm := Nat.div_add_mod num den
    rw [hqc] at hdm
    have hr : num % den = 0 := by omega
    simp only [rne]
    split_ifs <;> omega

theorem rne_ge (num den c : Nat) (hden : 0 < den) (h : den * c ≤ num) :
    c ≤ rne num den := by
  have hq : c ≤ num / den := (Nat.le_div_iff_mul_le hden).mpr (Nat.mul_comm den c ▸ h)
  simp only [rne]
  split_ifs <;> omega

theorem rne_mono (num1 num2 den : Nat) (h : num1 ≤ num2) :
    rne num1 den ≤ rne num2 den := by
  rcases Nat.lt_or_ge (num1 / den) (num2 / den) with hlt | hge
  · simp only [rne]
    split_ifs <;> omega
  · have hq : num1 / den = num2 / den := le_antisymm (Nat.div_le_div_right h) hge
    have h1 := Nat.div_add_mod num1 den
    have h2 := Nat.div_add_mod num2 den
    rw [hq] at h1
    have hr : num1 % den ≤ num2 % den := by omega
    simp only [rne]
    rw [hq]
    split_ifs <;> omega

theorem log2F_spec (fuel n : Nat) (h1 : 1 ≤ n) (h2 : n ≤ fuel) :
    2 ^ log2F fuel n ≤ n ∧ n < 2 ^ (log2F fuel n + 1) := by
  induction fuel generalizing n with
  | zero => omega
  | succ fuel ih =>
    simp only [log2F]
    by_cases hn : n ≤ 1
    · rw [if_pos hn]
      have hone : n = 1 := by omega
      subst hone
      norm_num
    · rw [if_neg hn]
      obtain ⟨ih1, ih2⟩ := ih (n / 2) (by omega) (by omega)
      constructor
      · rw [pow_succ]
        have h3 := Nat.mul_le_mul_right 2 ih1
        omega
      · rw [pow_succ]
        have h3 := Nat.mul_le_mul_right 2 ih2
        omega

theorem log2N_spec (n : Nat) (h : 1 ≤ n) :
    2 ^ log2N n ≤ n ∧ n < 2 ^ (log2N n + 1) := log2F_spec n n h le_rfl

theorem two_zpow_pos (t : Int) : (0:ℚ) < 2 ^ t := by positivity

theorem two_zpow_mul (s t : Int) : (2:ℚ) ^ s * (2:ℚ) ^ t = 2 ^ (s + t) :=
  (zpow_add₀ (by norm_num) s t).symm

theorem zpow_natCast_q (n : Nat) : (2:ℚ) ^ (n : ℤ) = ((2 ^ n : ℕ) : ℚ) := by
  rw [zpow_natCast]
  push_cast
  ring

theorem zpow_toNat_q (t : Int) (ht : 0 ≤ t) : (2:ℚ) ^ t = ((2 ^ t.toNat : ℕ) : ℚ) := by
  rw [← zpow_natCast_q, Int.toNat_of_nonneg ht]

theorem pow2leB_iff (a b : Nat) (hb : 0 < b) (t : Int) :
    pow2leB a b t = true ↔ (2:ℚ) ^ t ≤ (a : ℚ) / b := by
  have hbq : (0:ℚ) < (b:ℚ) := by exact_mod_cast hb
  simp only [pow2leB]
  by_cases ht : 0 ≤ t
  · rw [if_pos ht, decide_eq_true_eq, le_div_iff₀ hbq, zpow_toNat_q t ht]
    rw [show ((2 ^ t.toNat : ℕ) : ℚ) * (b:ℚ) = ((2 ^ t.toNat * b : ℕ) : ℚ) by push_cast; ring]
    rw [Nat.cast_le, Nat.mul_comm b (2 ^ t.toNat)]
  · rw [if_neg ht, decide_eq_true_eq]
    have ht' : (0:ℤ) ≤ -t := by omega
    have hX : (0:ℚ) < ((2 ^ (-t).toNat : ℕ) : ℚ) := by positivity
    have h2 : (((2 ^ (-t).toNat : ℕ)) : ℚ)⁻¹ = (2:ℚ) ^ t := by
      rw [← zpow_natCast_q, Int.toNat_of_nonneg ht', ← zpow_neg, neg_neg]
    rw [← h2, inv_eq_one_div, div_le_div_iff₀ hX hbq, one_mul]
    rw [show (a:ℚ) * ((2 ^ (-t).toNat : ℕ) : ℚ) = ((a * 2 ^ (-t).toNat : ℕ) : ℚ) by push_cast; ring]
    exact Nat.cast_le.symm

theorem flog2_spec (a b : Nat) (ha : 0 < a) (hb : 0 < b) :
    (2:ℚ) ^ flog2 a b ≤ (a : ℚ) / b ∧ (a : ℚ) / b < (2:ℚ) ^ (flog2 a b + 1) := by
  obtain ⟨la1, la2⟩ := log2N_spec a ha
  obtain ⟨lb1, lb2⟩ := log2N_spec b hb
  have hbq : (0:ℚ) < (b:ℚ) := by exact_mod_cast hb
  have hup : (a:ℚ) / b < (2:ℚ) ^ (((log2N a : Int) - log2N b) + 1) := by
    rw [div_lt_iff₀ hbq]
    calc (a:ℚ) < ((2 ^ (log2N a + 1) : ℕ) : ℚ) := by exact_mod_cast la2
      _ = (2:ℚ) ^ (((log2N a : Int) - log2N b) + 1) * (2:ℚ) ^ (log2N b : ℤ) := by
          rw [two_zpow_mul, ← zpow_natCast_q]
          congr 1
          push_cast
          ring
      _ ≤ (2:ℚ) ^ (((log2N a : Int) - log2N b) + 1) * (b:ℚ) := by
          apply mul_le_mul_of_nonneg_left _ (le_of_lt (two_zpow_pos _))
          rw [zpow_natCast_q]
          exact_mod_cast lb1
  have hlo : (2:ℚ) ^ (((log2N a : Int) - log2N b) - 1) ≤ (a:ℚ) / b := by
    rw [le_div_iff₀ hbq]
    refine le_of_lt ?_
    calc (2:ℚ) ^ (((log2N a : Int) - log2N b) - 1) * (b:ℚ)
        < (2:ℚ) ^ (((log2N a : Int) - log2N b) - 1) * (2:ℚ) ^ ((log2N b + 1 : ℕ) : ℤ) := by
          apply mul_lt_mul_of_pos_left _ (two_zpow_pos _)
          rw [zpow_natCast_q]
          exact_mod_cast lb2
      _ = (2:ℚ) ^ (log2N a : ℤ) := by
          rw [two_zpow_mul]
          congr 1
          push_cast
          ring
      _ ≤ (a:ℚ) := by
          rw [zpow_natCast_q]
          exact_mod_cast la1
  simp only [flog2]
  by_cases hp : pow2leB a b ((log2N a : Int) - log2N b) = true
  · rw [if_pos hp]
    exact ⟨(pow2leB_iff a b hb _).mp hp, hup⟩
  · rw [if_neg hp]
    have hnot : ¬ ((2:ℚ) ^ ((log2N a : Int) - log2N b) ≤ (a:ℚ) / b) :=
      fun hc => hp ((pow2leB_iff a b hb _).mpr hc)
    push_neg at hnot
    refine ⟨hlo, ?_⟩
    rw [show ((log2N a : Int) - log2N b) - 1 + 1 = (log2N a : Int) - log2N b by ring]
    exact hnot

theorem dval_mk (m : Nat) (e : Int) : dval (m, e) = (m:ℚ) * 2 ^ e := rfl

theorem pow_toNat_eq (t : Int) (ht : 0 ≤ t) : (2:ℚ) ^ t.toNat = (2:ℚ) ^ t := by
  rw [← zpow_natCast (2:ℚ) t.toNat, Int.toNat_of_nonneg ht]

theorem pow52_eq : (2:ℚ) ^ (52:ℕ) = (2:ℚ) ^ (52:ℤ) := by
  rw [← zpow_natCast (2:ℚ) 52]
  norm_num

theorem pow53_eq : (2:ℚ) ^ (53:ℕ) = (2:ℚ) ^ (53:ℤ) := by
  rw [← zpow_natCast (2:ℚ) 53]
  norm_num

theorem mPre_ge (a b : Nat) (ha : 0 < a) (hb : 0 < b) : 2 ^ 52 ≤ mPre a b := by
  obtain ⟨hk1, _⟩ := flog2_spec a b ha hb
  have hbq : (0:ℚ) < (b:ℚ) := by exact_mod_cast hb
  have hq : (2:ℚ) ^ flog2 a b * b ≤ a := (le_div_iff₀ hbq).mp hk1
  simp only [mPre]
  by_cases hes : 0 ≤ flog2 a b - 52
  · rw [if_pos hes]
    apply rne_ge _ _ _ (by positivity)
    have key : (b:ℚ) * (2:ℚ) ^ (flog2 a b - 52).toNat * (2:ℚ) ^ (52:ℕ) ≤ (a:ℚ) := by
      rw [pow_toNat_eq _ hes, pow52_eq]
      calc (b:ℚ) * (2:ℚ) ^ (flog2 a b - 52) * (2:ℚ) ^ (52:ℤ)
          = (2:ℚ) ^ flog2 a b * b := by
            rw [mul_assoc, two_zpow_mul,
              show flog2 a b - 52 + (52:ℤ) = flog2 a b by ring]
            ring
        _ ≤ (a:ℚ) := hq
    exact_mod_cast key
  · rw [if_neg hes]
    apply rne_ge _ _ _ hb
    have h52 : (0:ℤ) ≤ -(flog2 a b - 52) := by omega
    have key : (b:ℚ) * (2:ℚ) ^ (52:ℕ) ≤ (a:ℚ) * (2:ℚ) ^ (-(flog2 a b - 52)).toNat := by
      rw [pow_toNat_eq _ h52, pow52_eq]
      have hmul := mul_le_mul_of_nonneg_right hq
        (le_of_lt (two_zpow_pos (-(flog2 a b - 52))))
      have hz : (2:ℚ) ^ flog2 a b * (2:ℚ) ^ (-(flog2 a b - 52)) = (2:ℚ) ^ (52:ℤ) := by
        rw [two_zpow_mul]
        congr 1
        ring
      calc (b:ℚ) * (2:ℚ) ^ (52:ℤ)
          = (2:ℚ) ^ flog2 a b * b * (2:ℚ) ^ (-(flog2 a b - 52)) := by
            rw [← hz]
            ring
        _ ≤ (a:ℚ) * (2:ℚ) ^ (-(flog2 a b - 52)) := hmul
    exact_mod_cast key

theorem mPre_le (a b : Nat) (ha : 0 < a) (hb : 0 < b) : mPre a b ≤ 2 ^ 53 := by
  obtain ⟨_, hk2⟩ := flog2_spec a b ha hb
  have hbq : (0:ℚ) < (b:ℚ) := by exact_mod_cast hb
  have hq : (a:ℚ) < (2:ℚ) ^ (flog2 a b + 1) * b := (div_lt_iff₀ hbq).mp hk2
  simp only [mPre]
  by_cases hes : 0 ≤ flog2 a b - 52
  · rw [if_pos hes]
    apply rne_le _ _ _ (by positivity)
    have key : (a:ℚ) ≤ (b:ℚ) * (2:ℚ) ^ (flog2 a b - 52).toNat * (2:ℚ) ^ (53:ℕ) := by
      rw [pow_toNat_eq _ hes, pow53_eq]
      refine le_of_lt (lt_of_lt_of_le hq (le_of_eq ?_))
      rw [mul_assoc, two_zpow_mul,
        show flog2 a b - 52 + (53:ℤ) = flog2 a b + 1 by ring]
      ring
    have key2 : a ≤ b * 2 ^ (flog2 a b - 52).toNat * 2 ^ 53 := by exact_mod_cast key
    calc a ≤ b * 2 ^ (flog2 a b - 52).toNat * 2 ^ 53 := key2
      _ = b * 2 ^ (flog2 a b - 52).toNat * 2 ^ 53 := rfl
  · rw [if_neg hes]
    apply rne_le _ _ _ hb
    have h52 : (0:ℤ) ≤ -(flog2 a b - 52) := by omega
    have key : (a:ℚ) * (2:ℚ) ^ (-(flog2 a b - 52)).toNat ≤ (b:ℚ) * (2:ℚ) ^ (53:ℕ) := by
      rw [pow_toNat_eq _ h52, pow53_eq]
      have hmul := mul_le_mul_of_nonneg_right (le_of_lt hq)
        (le_of_lt (two_zpow_pos (-(flog2 a b - 52))))
      calc (a:ℚ) * (2:ℚ) ^ (-(flog2 a b - 52))
          ≤ (2:ℚ) ^ (flog2 a b + 1) * b * (2:ℚ) ^ (-(flog2 a b - 52)) := hmul
        _ = (b:ℚ) * (2:ℚ) ^ (53:ℤ) := by
            rw [mul_assoc, mul_comm ((b:ℚ)) ((2:ℚ) ^ (-(flog2 a b - 52))),
              ← mul_assoc, two_zpow_mul,
              show flog2 a b + 1 + -(flog2 a b - 52) = (53:ℤ) by ring]
            ring
    exact_mod_cast key

theorem dval_roundQ (a b : Nat) :
    dval (roundQ a b) = (mPre a b : ℚ) * 2 ^ (flog2 a b - 52) := by
  simp only [roundQ, dval]
  by_cases hc : mPre a b = 2 ^ 53
  · rw [if_pos hc, hc]
    simp only
    push_cast
    rw [zpow_add₀ (by norm_num : (2:ℚ) ≠ 0), zpow_one]
    ring
  · rw [if_neg hc]

theorem dval_roundQ_lower (a b : Nat) (ha : 0 < a) (hb : 0 < b) :
    (2:ℚ) ^ flog2 a b ≤ dval (roundQ a b) := by
  rw [dval_roundQ]
  have h1 := mPre_ge a b ha hb
  calc (2:ℚ) ^ flog2 a b = ((2 ^ 52 : ℕ) : ℚ) * 2 ^ (flog2 a b - 52) := by
        rw [← zpow_natCast_q, two_zpow_mul]
        congr 1
        push_cast
        ring
    _ ≤ (mPre a b : ℚ) * 2 ^ (flog2 a b - 52) := by
        apply mul_le_mul_of_nonneg_right _ (le_of_lt (two_zpow_pos _))
        exact_mod_cast h1

theorem dval_roundQ_upper (a b : Nat) (ha : 0 < a) (hb : 0 < b) :
    dval (roundQ a b) ≤ (2:ℚ) ^ (flog2 a b + 1) := by
  rw [dval_roundQ]
  have h1 := mPre_le a b ha hb
  calc (mPre a b : ℚ) * 2 ^ (flog2 a b - 52)
      ≤ ((2 ^ 53 : ℕ) : ℚ) * 2 ^ (flog2 a b - 52) := by
        apply mul_le_mul_of_nonneg_right _ (le_of_lt (two_zpow_pos _))
        exact_mod_cast h1
    _ = (2:ℚ) ^ (flog2 a b + 1) := by
        rw [← zpow_natCast_q, two_zpow_mul]
        congr 1
        push_cast
        ring

theorem roundQ_fst_pos (a b : Nat) (ha : 0 < a) (hb : 0 < b) :
    0 < (roundQ a b).1 := by
  simp only [roundQ]
  split_ifs
  · positivity
  · exact lt_of_lt_of_le (by positivity) (mPre_ge a b ha hb)

theorem roundQ_le_rep (a b c : Nat) (t : Int) (ha : 0 < a) (hb : 0 < b)
    (_hc : 0 < c) (hc53 : c < 2 ^ 53)
    (h : (a:ℚ) / b ≤ (c:ℚ) * 2 ^ t) :
    dval (roundQ a b) ≤ (c:ℚ) * 2 ^ t := by
  obtain ⟨hk1, hk2⟩ := flog2_spec a b ha hb
  have hbq : (0:ℚ) < (b:ℚ) := by exact_mod_cast hb
  by_cases hy : (2:ℚ) ^ (flog2 a b + 1) ≤ (c:ℚ) * 2 ^ t
  · exact le_trans (dval_roundQ_upper a b ha hb) hy
  · push_neg at hy
    have hkt : flog2 a b - 52 ≤ t := by
      by_contra hcon
      push_neg at hcon
      have hyy : (c:ℚ) * 2 ^ t < (2:ℚ) ^ flog2 a b := by
        calc (c:ℚ) * 2 ^ t < (2:ℚ) ^ (53:ℤ) * 2 ^ t := by
              apply mul_lt_mul_of_pos_right _ (two_zpow_pos t)
              rw [← pow53_eq]
              exact_mod_cast hc53
          _ ≤ (2:ℚ) ^ (53:ℤ) * 2 ^ (flog2 a b - 53) := by
              apply mul_le_mul_of_nonneg_left
                (zpow_le_zpow_right₀ (by norm_num) (by omega))
                (le_of_lt (two_zpow_pos _))
          _ = (2:ℚ) ^ flog2 a b := by
              rw [two_zpow_mul]
              congr 1
              ring
      have hxy := le_trans hk1 h
      linarith
    have hgval : ((c * 2 ^ (t - (flog2 a b - 52)).toNat : ℕ) : ℚ) *
        2 ^ (flog2 a b - 52) = (c:ℚ) * 2 ^ t := by
      push_cast
      rw [pow_toNat_eq _ (by omega), mul_assoc, two_zpow_mul,
        show t - (flog2 a b - 52) + (flog2 a b - 52) = t by ring]
    have hmg : mPre a b ≤ c * 2 ^ (t - (flog2 a b - 52)).toNat := by
      have hxg : (a:ℚ) / b ≤ ((c * 2 ^ (t - (flog2 a b - 52)).toNat : ℕ) : ℚ) *
          2 ^ (flog2 a b - 52) := by
        rw [hgval]
        exact h
      rw [div_le_iff₀ hbq] at hxg
      simp only [mPre]
      by_cases hes : 0 ≤ flog2 a b - 52
      · rw [if_pos hes]
        apply rne_le _ _ _ (by positivity)
        have key : (a:ℚ) ≤ (b:ℚ) * (2:ℚ) ^ (flog2 a b - 52).toNat *
            ((c * 2 ^ (t - (flog2 a b - 52)).toNat : ℕ) : ℚ) := by
          rw [pow_toNat_eq _ hes]
          calc (a:ℚ) ≤ ((c * 2 ^ (t - (flog2 a b - 52)).toNat : ℕ) : ℚ) *
              2 ^ (flog2 a b - 52) * b := hxg
            _ = (b:ℚ) * (2:ℚ) ^ (flog2 a b - 52) *
              ((c * 2 ^ (t - (flog2 a b - 52)).toNat : ℕ) : ℚ) := by ring
        exact_mod_cast key
      · rw [if_neg hes]
        apply rne_le _ _ _ hb
        have h52 : (0:ℤ) ≤ -(flog2 a b - 52) := by omega
        have key : (a:ℚ) * (2:ℚ) ^ (-(flog2 a b - 52)).toNat ≤
            (b:ℚ) * ((c * 2 ^ (t - (flog2 a b - 52)).toNat : ℕ) : ℚ) := by
          rw [pow_toNat_eq _ h52]
          have hmul := mul_le_mul_of_nonneg_right hxg
            (le_of_lt (two_zpow_pos (-(flog2 a b - 52))))
          calc (a:ℚ) * (2:ℚ) ^ (-(flog2 a b - 52))
              ≤ ((c * 2 ^ (t - (flog2 a b - 52)).toNat : ℕ) : ℚ) *
                2 ^ (flog2 a b - 52) * b * (2:ℚ) ^ (-(flog2 a b - 52)) := hmul
            _ = (b:ℚ) * ((c * 2 ^ (t - (flog2 a b - 52)).toNat : ℕ) : ℚ) *
                ((2:ℚ) ^ (flog2 a b - 52) * (2:ℚ) ^ (-(flog2 a b - 52))) := by
                ring
            _ = (b:ℚ) * ((c * 2 ^ (t - (flog2 a b - 52)).toNat : ℕ) : ℚ) := by
                rw [two_zpow_mul, show flog2 a b - 52 + -(flog2 a b - 52) = (0:ℤ) by ring,
                  zpow_zero, mul_one]
        exact_mod_cast key
    rw [dval_roundQ, ← hgval]
    apply mul_le_mul_of_nonneg_right _ (le_of_lt (two_zpow_pos _))
    exact_mod_cast hmg

theorem roundQ_nat_exact (n : Nat) (h1 : 0 < n) (h53 : n < 2 ^ 53) :
    dval (roundQ n 1) = (n : ℚ) := by
  obtain ⟨hk1, hk2⟩ := flog2_spec n 1 h1 one_pos
  rw [Nat.cast_one, div_one] at hk1 hk2
  have hk0 : 0 ≤ flog2 n 1 := by
    by_contra hc
    push_neg at hc
    have hmon : (2:ℚ) ^ (flog2 n 1 + 1) ≤ 2 ^ (0:ℤ) :=
      zpow_le_zpow_right₀ (by norm_num) (by omega)
    have hn1 : (1:ℚ) ≤ (n:ℚ) := by exact_mod_cast h1
    rw [zpow_zero] at hmon
    linarith
  have hk52 : flog2 n 1 ≤ 52 := by
    by_contra hc
    push_neg at hc
    have hmon : (2:ℚ) ^ (53:ℤ) ≤ 2 ^ flog2 n 1 :=
      zpow_le_zpow_right₀ (by norm_num) (by omega)
    have hn : (n:ℚ) < ((2 ^ 53 : ℕ) : ℚ) := by exact_mod_cast h53
    rw [← pow53_eq] at hmon
    push_cast at hn hmon
    linarith
  rw [dval_roundQ]
  simp only [mPre]
  by_cases hes : 0 ≤ flog2 n 1 - 52
  · have hk : flog2 n 1 = 52 := by omega
    rw [if_pos hes, hk]
    norm_num [rne_one]
  · rw [if_neg hes, rne_one]
    have h52 : (0:ℤ) ≤ -(flog2 n 1 - 52) := by omega
    push_cast
    rw [pow_toNat_eq _ h52, mul_assoc, two_zpow_mul,
      show -(flog2 n 1 - 52) + (flog2 n 1 - 52) = (0:ℤ) by ring, zpow_zero, mul_one]

theorem flog2_nat_le (n1 n2 : Nat) (h1 : 0 < n1) (h : n1 ≤ n2) :
    flog2 n1 1 ≤ flog2 n2 1 := by
  obtain ⟨a1, _⟩ := flog2_spec n1 1 h1 one_pos
  obtain ⟨_, b2⟩ := flog2_spec n2 1 (by omega) one_pos
  rw [Nat.cast_one, div_one] at a1 b2
  have hq : (n1:ℚ) ≤ (n2:ℚ) := by exact_mod_cast h
  have hlt : (2:ℚ) ^ flog2 n1 1 < 2 ^ (flog2 n2 1 + 1) :=
    lt_of_le_of_lt (le_trans a1 hq) b2
  have := (zpow_lt_zpow_iff_right₀ (by norm_num : (1:ℚ) < 2)).mp hlt
  omega

theorem roundQ_nat_mono (n1 n2 : Nat) (h1 : 0 < n1) (h : n1 ≤ n2) :
    dval (roundQ n1 1) ≤ dval (roundQ n2 1) := by
  have h2 : 0 < n2 := by omega
  by_cases hs2 : n2 < 2 ^ 53
  · rw [roundQ_nat_exact n1 h1 (by omega), roundQ_nat_exact n2 h2 hs2]
    exact_mod_cast h
  · push_neg at hs2
    by_cases hs1 : n1 < 2 ^ 53
    · rw [roundQ_nat_exact n1 h1 hs1]
      have hk2 : (53:ℤ) ≤ flog2 n2 1 := by
        obtain ⟨_, b2⟩ := flog2_spec n2 1 h2 one_pos
        rw [Nat.cast_one, div_one] at b2
        have hc : ((2 ^ 53 : ℕ):ℚ) ≤ (n2:ℚ) := by exact_mod_cast hs2
        have hlt : (2:ℚ) ^ (53:ℤ) < 2 ^ (flog2 n2 1 + 1) := by
          rw [← pow53_eq]
          push_cast at hc
          linarith
        have := (zpow_lt_zpow_iff_right₀ (by norm_num : (1:ℚ) < 2)).mp hlt
        omega
      have hval := dval_roundQ_lower n2 1 h2 one_pos
      have hstep : (2:ℚ) ^ (53:ℤ) ≤ (2:ℚ) ^ flog2 n2 1 :=
        zpow_le_zpow_right₀ (by norm_num) hk2
      have hn1 : (n1:ℚ) < (2:ℚ) ^ (53:ℤ) := by
        rw [← pow53_eq]
        exact_mod_cast hs1
      linarith
    · push_neg at hs1
      have hk1 : flog2 n1 1 ≤ flog2 n2 1 := flog2_nat_le n1 n2 h1 h
      by_cases hkk : flog2 n1 1 = flog2 n2 1
      · rw [dval_roundQ, dval_roundQ, hkk]
        apply mul_le_mul_of_nonneg_right _ (le_of_lt (two_zpow_pos _))
        have hm : mPre n1 1 ≤ mPre n2 1 := by
          simp only [mPre]
          rw [hkk]
          by_cases hes : 0 ≤ flog2 n2 1 - 52
          · rw [if_pos hes, if_pos hes]
            exact rne_mono n1 n2 _ h
          · rw [if_neg hes, if_neg hes, rne_one, rne_one]
            exact Nat.mul_le_mul_right _ h
        exact_mod_cast hm
      · have hklt : flog2 n1 1 < flog2 n2 1 := lt_of_le_of_ne hk1 hkk
        have hu := dval_roundQ_upper n1 1 h1 one_pos
        have hl := dval_roundQ_lower n2 1 h2 one_pos
        have hmid : (2:ℚ) ^ (flog2 n1 1 + 1) ≤ 2 ^ flog2 n2 1 :=
          zpow_le_zpow_right₀ (by norm_num) (by omega)
        linarith

theorem truncSat_le (m : Nat) (e : Int) (c : Nat) (h : (m:ℚ) * 2 ^ e ≤ (c:ℚ)) :
    truncSat (m, e) ≤ c := by
  simp only [truncSat]
  by_cases hes : 0 ≤ e
  · rw [if_pos hes]
    have hq : ((m * 2 ^ e.toNat : ℕ) : ℚ) ≤ (c:ℚ) := by
      push_cast
      rw [pow_toNat_eq _ hes]
      exact h
    have hn : m * 2 ^ e.toNat ≤ c := by exact_mod_cast hq
    exact le_trans (Nat.min_le_left _ _) hn
  · rw [if_neg hes]
    have h52 : (0:ℤ) ≤ -e := by omega
    have hq : (m:ℚ) ≤ (c:ℚ) * (2:ℚ) ^ (-e).toNat := by
      rw [pow_toNat_eq _ h52]
      have hmul := mul_le_mul_of_nonneg_right h (le_of_lt (two_zpow_pos (-e)))
      calc (m:ℚ) = (m:ℚ) * ((2:ℚ) ^ e * (2:ℚ) ^ (-e)) := by
            rw [two_zpow_mul, show e + -e = (0:ℤ) by ring, zpow_zero, mul_one]
        _ = (m:ℚ) * (2:ℚ) ^ e * (2:ℚ) ^ (-e) := by ring
        _ ≤ (c:ℚ) * (2:ℚ) ^ (-e) := hmul
    have hn : m ≤ c * 2 ^ (-e).toNat := by exact_mod_cast hq
    have hdiv : m / 2 ^ (-e).toNat ≤ c := by
      calc m / 2 ^ (-e).toNat ≤ c * 2 ^ (-e).toNat / 2 ^ (-e).toNat :=
            Nat.div_le_div_right hn
        _ = c := by
            rw [Nat.mul_comm]
            exact Nat.mul_div_cancel_left c (by positivity)
    exact le_trans (Nat.min_le_left _ _) hdiv

theorem usage_percent_le (used total : Nat) (h : used ≤ total) :
    usage_percent used total ≤ 100 := by
  simp only [usage_percent]
  by_cases ht : 0 < total
  case neg =>
    rw [if_neg ht]
    omega
  rw [if_pos ht]
  by_cases hu : used = 0
  · rw [if_pos hu]
    omega
  · rw [if_neg hu]
    have hupos : 0 < used := Nat.pos_of_ne_zero hu
    set fu := roundQ used 1 with hfu
    set ft := roundQ total 1 with hft
    have hA : dval fu ≤ dval ft := roundQ_nat_mono used total hupos h
    have hmu : 0 < fu.1 := roundQ_fst_pos used 1 hupos one_pos
    have hmt : 0 < ft.1 := roundQ_fst_pos total 1 ht one_pos
    have hmtq : (0:ℚ) < (ft.1 : ℚ) := by exact_mod_cast hmt
    simp only [dval] at hA
    have hBpre : ((fu.1:ℚ)) / (ft.1:ℚ) ≤ (1:ℚ) * 2 ^ (ft.2 - fu.2) := by
      rw [one_mul, div_le_iff₀ hmtq]
      have hmul := mul_le_mul_of_nonneg_right hA (le_of_lt (two_zpow_pos (-fu.2)))
      calc (fu.1:ℚ) = (fu.1:ℚ) * ((2:ℚ) ^ fu.2 * (2:ℚ) ^ (-fu.2)) := by
            rw [two_zpow_mul, show fu.2 + -fu.2 = (0:ℤ) by ring, zpow_zero, mul_one]
        _ = (fu.1:ℚ) * (2:ℚ) ^ fu.2 * (2:ℚ) ^ (-fu.2) := by ring
        _ ≤ (ft.1:ℚ) * (2:ℚ) ^ ft.2 * (2:ℚ) ^ (-fu.2) := hmul
        _ = (2:ℚ) ^ (ft.2 - fu.2) * (ft.1:ℚ) := by
            rw [mul_assoc, two_zpow_mul, show ft.2 + -fu.2 = ft.2 - fu.2 by ring]
            ring
    have hB := roundQ_le_rep fu.1 ft.1 1 (ft.2 - fu.2) hmu hmt one_pos (by norm_num) hBpre
    set q0 := roundQ fu.1 ft.1 with hq0
    have hq0pos : 0 < q0.1 := roundQ_fst_pos fu.1 ft.1 hmu hmt
    have hBv : (q0.1:ℚ) * 2 ^ q0.2 ≤ 2 ^ (ft.2 - fu.2) := by
      simpa [dval] using hB
    have hstep : (q0.1:ℚ) * 2 ^ (q0.2 + fu.2 - ft.2) ≤ 1 := by
      have hmul := mul_le_mul_of_nonneg_right hBv (le_of_lt (two_zpow_pos (fu.2 - ft.2)))
      calc (q0.1:ℚ) * 2 ^ (q0.2 + fu.2 - ft.2)
          = (q0.1:ℚ) * (2:ℚ) ^ q0.2 * (2:ℚ) ^ (fu.2 - ft.2) := by
            rw [mul_assoc, two_zpow_mul,
              show q0.2 + (fu.2 - ft.2) = q0.2 + fu.2 - ft.2 by ring]
        _ ≤ (2:ℚ) ^ (ft.2 - fu.2) * (2:ℚ) ^ (fu.2 - ft.2) := hmul
        _ = 1 := by
            rw [two_zpow_mul, show ft.2 - fu.2 + (fu.2 - ft.2) = (0:ℤ) by ring, zpow_zero]
    have hCpre : ((q0.1 * 100 : ℕ):ℚ) / ((1:ℕ):ℚ) ≤
        (25:ℚ) * 2 ^ ((2:ℤ) - (q0.2 + fu.2 - ft.2)) := by
      have hone : (2:ℚ) ^ (q0.2 + fu.2 - ft.2) * (2:ℚ) ^ (-(q0.2 + fu.2 - ft.2)) = 1 := by
        rw [two_zpow_mul, show q0.2 + fu.2 - ft.2 + -(q0.2 + fu.2 - ft.2) = (0:ℤ) by ring,
          zpow_zero]
      calc ((q0.1 * 100 : ℕ):ℚ) / ((1:ℕ):ℚ) = (q0.1:ℚ) * 100 := by
            push_cast
            ring
        _ = (q0.1:ℚ) * 2 ^ (q0.2 + fu.2 - ft.2) *
            (100 * (2:ℚ) ^ (-(q0.2 + fu.2 - ft.2))) := by
            rw [show (q0.1:ℚ) * 2 ^ (q0.2 + fu.2 - ft.2) *
                (100 * (2:ℚ) ^ (-(q0.2 + fu.2 - ft.2))) =
                (q0.1:ℚ) * 100 *
                ((2:ℚ) ^ (q0.2 + fu.2 - ft.2) * (2:ℚ) ^ (-(q0.2 + fu.2 - ft.2))) by ring,
              hone, mul_one]
        _ ≤ 1 * (100 * (2:ℚ) ^ (-(q0.2 + fu.2 - ft.2))) := by
            apply mul_le_mul_of_nonneg_right hstep (by positivity)
        _ = (25:ℚ) * 2 ^ ((2:ℤ) - (q0.2 + fu.2 - ft.2)) := by
            rw [one_mul, show (100:ℚ) = 25 * (2:ℚ) ^ (2:ℤ) by norm_num, mul_assoc,
              two_zpow_mul, show (2:ℤ) + -(q0.2 + fu.2 - ft.2) = 2 - (q0.2 + fu.2 - ft.2)
                by ring]
    have hC := roundQ_le_rep (q0.1 * 100) 1 25 ((2:ℤ) - (q0.2 + fu.2 - ft.2))
      (by positivity) one_pos (by norm_num) (by norm_num) hCpre
    set p0 := roundQ (q0.1 * 100) 1 with hp0
    have hfinal : (p0.1:ℚ) * 2 ^ (p0.2 + (q0.2 + fu.2 - ft.2)) ≤ ((100:ℕ):ℚ) := by
      have hmul := mul_le_mul_of_nonneg_right hC
        (le_of_lt (two_zpow_pos (q0.2 + fu.2 - ft.2)))
      calc (p0.1:ℚ) * 2 ^ (p0.2 + (q0.2 + fu.2 - ft.2))
          = dval p0 * (2:ℚ) ^ (q0.2 + fu.2 - ft.2) := by
            simp only [dval]
            rw [mul_assoc, two_zpow_mul]
        _ ≤ (25:ℚ) * 2 ^ ((2:ℤ) - (q0.2 + fu.2 - ft.2)) *
            (2:ℚ) ^ (q0.2 + fu.2 - ft.2) := hmul
        _ = ((100:ℕ):ℚ) := by
            rw [mul_assoc, two_zpow_mul,
              show (2:ℤ) - (q0.2 + fu.2 - ft.2) + (q0.2 + fu.2 - ft.2) = (2:ℤ) by ring]
            norm_num
    exact truncSat_le p0.1 (p0.2 + (q0.2 + fu.2 - ft.2)) 100 hfinal

theorem create_progress_bar_eq (p : Nat) (hp : p ≤ 100) :
    create_progress_bar p =
      some (String.mk (List.replicate (p / 2) '█' ++ List.replicate (50 - p / 2) '░')) := by
  simp only [create_progress_bar, checkedSub, PROGRESS_BAR_WIDTH]
  rw [if_pos (show p / 2 ≤ 50 by omega)]

theorem fbLoop_ge (bytes i fuel : Nat) : i ≤ fbLoop bytes i fuel := by
  induction fuel generalizing i with
  | zero => simp [fbLoop]
  | succ fuel ih =>
    simp only [fbLoop]
    split
    · exact le_trans (Nat.le_succ i) (ih (i + 1))
    · exact le_refl i

theorem fbLoop_mono (b1 b2 : Nat) (h : b1 ≤ b2) (i fuel : Nat) :
    fbLoop b1 i fuel ≤ fbLoop b2 i fuel := by
  induction fuel generalizing i with
  | zero => simp [fbLoop]
  | succ fuel ih =>
    simp only [fbLoop]
    split
    · next hc1 =>
      rw [if_pos (le_trans hc1 h)]
      exact ih (i + 1)
    · next hc1 =>
      split
      · exact le_trans (Nat.le_succ i) (fbLoop_ge b2 (i + 1) fuel)
      · exact le_refl i

theorem fu_days (s : Nat) (h : 0 < s / 86400) :
    format_uptime s =
      decRepr (s / 86400) ++ "d " ++ decRepr (s % 86400 / 3600) ++ "h " ++
        decRepr (s % 3600 / 60) ++ "m " ++ decRepr (s % 60) ++ "s" := by
  simp only [format_uptime]
  rw [if_pos h]

theorem fu_hours (s : Nat) (hd : s / 86400 = 0) (hh : 0 < s % 86400 / 3600) :
    format_uptime s =
      decRepr (s % 86400 / 3600) ++ "h " ++ decRepr (s % 3600 / 60) ++ "m " ++
        decRepr (s % 60) ++ "s" := by
  simp only [format_uptime]
  rw [if_neg (by omega), if_pos hh]

theorem fu_minutes (s : Nat) (hd : s / 86400 = 0) (hh : s % 86400 / 3600 = 0)
    (hm : 0 < s % 3600 / 60) :
    format_uptime s = decRepr (s % 3600 / 60) ++ "m " ++ decRepr (s % 60) ++ "s" := by
  simp only [format_uptime]
  rw [if_neg (by omega), if_neg (by omega), if_pos hm]

theorem fu_secs (s : Nat) (hd : s / 86400 = 0) (hh : s % 86400 / 3600 = 0)
    (hm : s % 3600 / 60 = 0) :
    format_uptime s = decRepr (s % 60) ++ "s" := by
  simp only [format_uptime]
  rw [if_neg (by omega), if_neg (by omega), if_neg (by omega)]

/-! ### Claim theorems -/

/-- C7 counterexample: at `used = 29`, `total = 100` the program's f64
evaluation `(29 as f64 / 100 as f64 * 100.0) as u32` yields 28
(`0.29` rounds below `29/100`, so `0.29 * 100.0 = 28.999999999999996`),
while the claimed formula `used / total * 100` gives exactly 29 — the
derived percentage is not computed as the exact `used / total * 100`. -/
theorem usage_percent_f64_deviates :
    usage_percent 29 100 = 28 ∧ 29 * 100 / 100 = 29 ∧
      usage_percent 29 100 ≠ 29 * 100 / 100 := by
  refine ⟨by decide, by decide, by decide⟩

/-- C7 (amended): for every percentage `p ≤ 100`, `create_progress_bar p`
succeeds and yields exactly `p / 2` filled glyphs followed by `50 - p / 2`
empty glyphs, 50 glyphs in total; every derived usage percentage fed to it
is computed by evaluating `used / total * 100` in f64 and truncating to
u32 — 0 when `total` is 0, never above 100 when `used ≤ total`, but
possibly differing from the exact integer percentage by rounding
(28 instead of 29 at `used = 29`, `total = 100`). -/
theorem create_progress_bar_spec (p : Nat) (hp : p ≤ 100) :
    create_progress_bar p =
      some (String.mk (List.replicate (p / 2) '█' ++ List.replicate (50 - p / 2) '░'))
    ∧ (String.mk (List.replicate (p / 2) '█' ++ List.replicate (50 - p / 2) '░')).length = 50
    ∧ (∀ u : Nat, usage_percent u 0 = 0)
    ∧ (∀ u t : Nat, u ≤ t → usage_percent u t ≤ 100)
    ∧ usage_percent 29 100 = 28 := by
  refine ⟨create_progress_bar_eq p hp, ?_, ?_, ?_, by decide⟩
  · show (List.replicate (p / 2) '█' ++ List.replicate (50 - p / 2) '░').length = 50
    rw [List.length_append, List.length_replicate, List.length_replicate]
    omega
  · intro u
    rfl
  · intro u t hut
    exact usage_percent_le u t hut

/-- C7 witness at `p = 85`. -/
theorem create_progress_bar_spec_witness :
    (85 : Nat) ≤ 100 ∧
      create_progress_bar 85 =
        some (String.mk (List.replicate 42 '█' ++ List.replicate 8 '░')) :=
  ⟨by decide, ((create_progress_bar_spec 85 (by decide)).1).trans (by decide)⟩

/-- C8: `format_bytes` renders `1024 ^ k` as `"1.00 <unit>"` for the five
units B, KB, MB, GB, TB, the selected unit index is monotonically
non-decreasing in the byte count, and `format_bytes 1536 = "1.50 KB"`. -/
theorem format_bytes_spec :
    (format_bytes 1 = "1.00 B" ∧ format_bytes 1024 = "1.00 KB" ∧
      format_bytes 1048576 = "1.00 MB" ∧ format_bytes 1073741824 = "1.00 GB" ∧
      format_bytes 1099511627776 = "1.00 TB")
    ∧ (∀ a b : Nat, a ≤ b → unit_index a ≤ unit_index b)
    ∧ format_bytes 1536 = "1.50 KB" := by
  refine ⟨⟨by decide, by decide, by decide, by decide, by decide⟩, ?_, by decide⟩
  intro a b h
  exact fbLoop_mono a b h 0 (UNITS.length - 1)

/-- C8 witness: monotonicity of the unit index at `5 ≤ 2048`. -/
theorem format_bytes_spec_witness : (5 : Nat) ≤ 2048 ∧ unit_index 5 ≤ unit_index 2048 :=
  ⟨by decide, format_bytes_spec.2.1 5 2048 (by decide)⟩

/-- C9: `format_uptime` omits leading zero-valued larger units (no day
component when days = 0, no hour component when days and hours are 0, no
minute component when all larger units are 0), always ends with the
seconds component, and renders `90` as `"1m 30s"` and `90061` as
`"1d 1h 1m 1s"`. -/
theorem format_uptime_spec (s : Nat) :
    (s / 86400 = 0 → 'd' ∉ (format_uptime s).data)
    ∧ (s / 86400 = 0 → s % 86400 / 3600 = 0 → 'h' ∉ (format_uptime s).data)
    ∧ (s / 86400 = 0 → s % 86400 / 3600 = 0 → s % 3600 / 60 = 0 →
        'm' ∉ (format_uptime s).data)
    ∧ (∃ p : List Char, (format_uptime s).data = p ++ (decRepr (s % 60)).data ++ ['s'])
    ∧ format_uptime 90 = "1m 30s"
    ∧ format_uptime 90061 = "1d 1h 1m 1s" := by
  have hs : ("s" : String).data = ['s'] := rfl
  refine ⟨?_, ?_, ?_, ?_, by decide, by decide⟩
  · intro hd
    by_cases hh : 0 < s % 86400 / 3600
    · rw [fu_hours s hd hh]
      simp only [mem_data_append, not_or]
      exact ⟨⟨⟨⟨⟨not_mem_decRepr 'd' _ (by decide), by decide⟩,
        not_mem_decRepr 'd' _ (by decide)⟩, by decide⟩,
        not_mem_decRepr 'd' _ (by decide)⟩, by decide⟩
    · by_cases hm : 0 < s % 3600 / 60
      · rw [fu_minutes s hd (by omega) hm]
        simp only [mem_data_append, not_or]
        exact ⟨⟨⟨not_mem_decRepr 'd' _ (by decide), by decide⟩,
          not_mem_decRepr 'd' _ (by decide)⟩, by decide⟩
      · rw [fu_secs s hd (by omega) (by omega)]
        simp only [mem_data_append, not_or]
        exact ⟨not_mem_decRepr 'd' _ (by decide), by decide⟩
  · intro hd hh
    by_cases hm : 0 < s % 3600 / 60
    · rw [fu_minutes s hd hh hm]
      simp only [mem_data_append, not_or]
      exact ⟨⟨⟨not_mem_decRepr 'h' _ (by decide), by decide⟩,
        not_mem_decRepr 'h' _ (by decide)⟩, by decide⟩
    · rw [fu_secs s hd hh (by omega)]
      simp only [mem_data_append, not_or]
      exact ⟨not_mem_decRepr 'h' _ (by decide), by decide⟩
  · intro hd hh hm
    rw [fu_secs s hd hh hm]
    simp only [mem_data_append, not_or]
    exact ⟨not_mem_decRepr 'm' _ (by decide), by decide⟩
  · by_cases hd : 0 < s / 86400
    · rw [fu_days s hd]
      refine ⟨(decRepr (s / 86400)).data ++ ("d " : String).data ++
        (decRepr (s % 86400 / 3600)).data ++ ("h " : String).data ++
        (decRepr (s % 3600 / 60)).data ++ ("m " : String).data, ?_⟩
      simp only [String.data_append, hs, List.append_assoc]
    · by_cases hh : 0 < s % 86400 / 3600
      · rw [fu_hours s (by omega) hh]
        refine ⟨(decRepr (s % 86400 / 3600)).data ++ ("h " : String).data ++
          (decRepr (s % 3600 / 60)).data ++ ("m " : String).data, ?_⟩
        simp only [String.data_append, hs, List.append_assoc]
      · by_cases hm : 0 < s % 3600 / 60
        · rw [fu_minutes s (by omega) (by omega) hm]
          refine ⟨(decRepr (s % 3600 / 60)).data ++ ("m " : String).data, ?_⟩
          simp only [String.data_append, hs, List.append_assoc]
        · rw [fu_secs s (by omega) (by omega) (by omega)]
          refine ⟨[], ?_⟩
          simp only [String.data_append, hs, List.nil_append]

/-- C9 witness at `s = 125`: no day component, and the day-count is 0. -/
theorem format_uptime_spec_witness :
    (125 : Nat) / 86400 = 0 ∧ 'd' ∉ (format_uptime 125).data :=
  ⟨by decide, (format_uptime_spec 125).1 (by decide)⟩

/-- C10 counterexample: the input `total_memory = 1`, `used_memory = 0`,
`total_swap = 1`, `used_swap = 3` satisfies the claim's stated provider
contract (`used_memory ≤ total_memory`; no disks), yet the swap usage
percentage is 300 (outside 0..=100) and `render_memory_data` hits the
`50 - filled` underflow in the swap usage bar, so rendering is not total
under that contract. -/
theorem render_memory_swap_bar_panics :
    (0 : Nat) ≤ 1 ∧ render_memory_data 1 0 1 3 = none ∧ 100 < usage_percent 3 1 := by
  refine ⟨by decide, by decide, by decide⟩

/-- C10 (amended): under the provider contract extended with
`used_swap ≤ total_swap`, all rendered and printed derived values are
total: the unchecked subtractions for free memory and disk used space
succeed, the derived percentages lie in 0..=100, and the progress bar's
`50 - filled` subtraction succeeds; without the preconditions the
unchecked subtractions underflow (`none`); the free-swap value is computed
by saturating subtraction and needs no swap precondition. -/
theorem render_totality (tm um ts us t a : Nat)
    (hmem : um ≤ tm) (hswap : us ≤ ts) (hdisk : a ≤ t) :
    (∃ v, render_memory_data tm um ts us = some v)
    ∧ (∃ v, render_disk_data t a = some v)
    ∧ render_overview_free tm um = some (tm - um)
    ∧ (∀ us2 : Nat, print_memory_frees tm um ts us2 = some (tm - um, ts - us2))
    ∧ usage_percent um tm ≤ 100
    ∧ usage_percent us ts ≤ 100
    ∧ usage_percent (t - a) t ≤ 100
    ∧ (∀ pc : Nat, pc ≤ 100 → (create_progress_bar pc).isSome = true)
    ∧ render_memory_data 0 1 0 0 = none
    ∧ render_disk_data 0 1 = none
    ∧ create_progress_bar 102 = none := by
  have hcs : checkedSub tm um = some (tm - um) := by
    unfold checkedSub
    rw [if_pos hmem]
  have hcsd : checkedSub t a = some (t - a) := by
    unfold checkedSub
    rw [if_pos hdisk]
  refine ⟨?_, ?_, hcs, ?_, usage_percent_le um tm hmem, usage_percent_le us ts hswap,
    usage_percent_le (t - a) t (Nat.sub_le t a), ?_, by decide, by decide, by decide⟩
  · unfold render_memory_data
    rw [hcs]
    dsimp only
    rw [create_progress_bar_eq _ (usage_percent_le um tm hmem),
      create_progress_bar_eq _ (usage_percent_le us ts hswap)]
    exact ⟨_, rfl⟩
  · unfold render_disk_data
    rw [hcsd]
    dsimp only
    rw [create_progress_bar_eq _ (usage_percent_le (t - a) t (Nat.sub_le t a))]
    exact ⟨_, rfl⟩
  · intro us2
    unfold print_memory_frees
    rw [hcs]
  · intro pc hpc
    rw [create_progress_bar_eq pc hpc]
    rfl

/-- C10 witness at `total_memory = 4`, `used_memory = 2`, `total_swap = 4`,
`used_swap = 1`, one disk with `total = 10`, `available = 5`. -/
theorem render_totality_witness :
    (2 : Nat) ≤ 4 ∧ usage_percent 2 4 ≤ 100 :=
  ⟨by decide, (render_totality 4 2 4 1 10 5 (by decide) (by decide) (by decide)).2.2.2.2.1⟩

/-- C4: from the initial state, the key sequence `['r', '3', 'q']` ends
with the Disks tab, exits via the quit flag, and performs exactly two
snapshot collections (construction plus the manual refresh); moreover
`handle_input` reports `true` only for the key `'q'`. -/
theorem refresh_select_quit_scenario (t0 now : ℚ) :
    process (App.new t0) now [KeyCode.char 'r', KeyCode.char '3', KeyCode.char 'q'] =
      (true, { system_info := 2, collect_count := 2, last_refresh := now,
               status_message := "Showing: Disks", current_tab := Tab.Disks })
    ∧ (∀ (a : App) (t : ℚ) (k : KeyCode), (handle_input a t k).1 = true →
        k = KeyCode.char 'q') := by
  constructor
  · rfl
  · intro a t k hk
    cases k with
    | otherKey => simp [handle_input] at hk
    | char c =>
      simp only [handle_input] at hk
      split_ifs at hk with h1 h2 h3 h4 h5 h6 h7
      rw [h1]

/-- C4 witness: the quit flag at the concrete initial state is reported
for `'q'`. -/
theorem refresh_select_quit_scenario_witness : KeyCode.char 'q' = KeyCode.char 'q' :=
  (refresh_select_quit_scenario 0 0).2 (App.new 0) 0 (KeyCode.char 'q') rfl

/-- C5: a timer tick firing when strictly more than 2 seconds elapsed
since `last_refresh` equals the manual-refresh result with the status
message left unchanged: both collect a new snapshot and reset
`last_refresh` to the current time, the tab is unchanged by both, and only
the manual refresh sets the status message. -/
theorem auto_refresh_matches_manual (a : App) (now : ℚ) (h : 2 < now - a.last_refresh) :
    auto_refresh_step a now =
      { (handle_input a now (KeyCode.char 'r')).2 with status_message := a.status_message }
    ∧ (auto_refresh_step a now).status_message = a.status_message
    ∧ ((handle_input a now (KeyCode.char 'r')).2).status_message =
        "System information refreshed!"
    ∧ (auto_refresh_step a now).current_tab = a.current_tab
    ∧ ((handle_input a now (KeyCode.char 'r')).2).current_tab = a.current_tab
    ∧ (auto_refresh_step a now).system_info = a.collect_count + 1
    ∧ (auto_refresh_step a now).collect_count = a.collect_count + 1
    ∧ (auto_refresh_step a now).last_refresh = now := by
  unfold auto_refresh_step
  rw [if_pos h]
  exact ⟨rfl, rfl, rfl, rfl, rfl, rfl, rfl, rfl⟩

/-- C5 witness: a tick at time 3 on the initial state constructed at
time 0. -/
theorem auto_refresh_matches_manual_witness :
    2 < (3 : ℚ) - (App.new 0).last_refresh ∧
      (auto_refresh_step (App.new 0) 3).collect_count = (App.new 0).collect_count + 1 := by
  have h : 2 < (3 : ℚ) - (App.new 0).last_refresh := by norm_num [App.new]
  exact ⟨h, (auto_refresh_matches_manual (App.new 0) 3 h).2.2.2.2.2.2.1⟩

/-- C6: tab selection is idempotent: a digit key `'1'`-`'4'` never quits,
selecting the already-current tab changes only the status message, and
selecting the same tab twice in a row yields the same result as once. -/
theorem tab_select_idempotent (a : App) (now : ℚ) (c : Char)
    (h : c = '1' ∨ c = '2' ∨ c = '3' ∨ c = '4') :
    (handle_input a now (KeyCode.char c)).1 = false
    ∧ (a.current_tab = tabOfDigit c →
        (handle_input a now (KeyCode.char c)).2 = { a with status_message := tabMsg c })
    ∧ handle_input (handle_input a now (KeyCode.char c)).2 now (KeyCode.char c) =
        handle_input a now (KeyCode.char c) := by
  rcases h with rfl | rfl | rfl | rfl
  · refine ⟨rfl, fun ht => ?_, rfl⟩
    cases a
    dsimp only at ht
    subst ht
    rfl
  · refine ⟨rfl, fun ht => ?_, rfl⟩
    cases a
    dsimp only at ht
    subst ht
    rfl
  · refine ⟨rfl, fun ht => ?_, rfl⟩
    cases a
    dsimp only at ht
    subst ht
    rfl
  · refine ⟨rfl, fun ht => ?_, rfl⟩
    cases a
    dsimp only at ht
    subst ht
    rfl

/-- C6 witness: selecting tab 3 when the Disks tab is already current. -/
theorem tab_select_idempotent_witness :
    ('3' = '1' ∨ '3' = '2' ∨ '3' = '3' ∨ '3' = '4') ∧
      (handle_input (App.new 0) 0 (KeyCode.char '3')).1 = false :=
  ⟨by decide, (tab_select_idempotent (App.new 0) 0 '3' (by decide)).1⟩

/-- One unfolding step of the `get_public_ip` endpoint loop. -/
theorem getPublicIpAux_cons (oracle : String → Option String) (s : String)
    (rest : List String) :
    getPublicIpAux oracle (s :: rest) =
      match firstHit (oracle s) with
      | some t => (some t, [s])
      | none => ((getPublicIpAux oracle rest).1, s :: (getPublicIpAux oracle rest).2) := by
  simp only [getPublicIpAux, firstHit]
  cases oracle s with
  | none => rfl
  | some body =>
    by_cases e : body.trim.isEmpty
    · simp [e]
    · simp [e]

/-- C2: for every behaviour of the three IP-echo endpoints,
`get_public_ip` queries them strictly in declared order, returns the first
trimmed non-empty body while contacting no endpoint after that success,
and returns `none` exactly when every endpoint errors, times out, or
yields an empty trimmed body — i.e. it coincides with the spec-side
fallback description `publicIpSpec`. -/
theorem get_public_ip_follows_order (oracle : String → Option String)
    (b1 b2 b3 : Option String)
    (h1 : oracle "https://api.ipify.org" = b1)
    (h2 : oracle "https://ifconfig.me/ip" = b2)
    (h3 : oracle "https://icanhazip.com" = b3) :
    get_public_ip oracle = publicIpSpec b1 b2 b3 := by
  subst h1
  subst h2
  subst h3
  unfold get_public_ip services publicIpSpec
  rw [getPublicIpAux_cons, getPublicIpAux_cons, getPublicIpAux_cons]
  cases firstHit (oracle "https://api.ipify.org") with
  | some t => rfl
  | none =>
    cases firstHit (oracle "https://ifconfig.me/ip") with
    | some t => rfl
    | none =>
      cases firstHit (oracle "https://icanhazip.com") with
      | some t => rfl
      | none => rfl

/-- C2 witness: the first endpoint fails, the second answers with
whitespace around the address, the third is never needed. -/
theorem get_public_ip_follows_order_witness :
    get_public_ip wOracle = publicIpSpec none (some " 203.0.113.7\n") none :=
  get_public_ip_follows_order wOracle none (some " 203.0.113.7\n") none rfl rfl rfl

/-- One unfolding step of the `benchmark_bandwidth` URL loop. -/
theorem benchAux_cons (oracle : String → DlOutcome) (url : String)
    (rest : List String) :
    benchAux oracle (url :: rest) =
      match oracle url with
      | DlOutcome.reqErr => benchAux oracle rest
      | DlOutcome.bodyErr => benchAux oracle rest
      | DlOutcome.success bytes elapsed =>
        if 0 < elapsed then some ((bytes : ℚ) * 8 / (elapsed * 1000000))
        else benchAux oracle rest := rfl

/-- C3 counterexample: a download that succeeds in 1 second with a
zero-byte body makes `benchmark_bandwidth` return `some 0`, which is not
positive, so a successful download with positive elapsed time does not
always yield a positive value. -/
theorem benchmark_bandwidth_zero_byte_success :
    benchmark_bandwidth zeroByteOracle = some 0 ∧ ¬ (0 < (0 : ℚ)) := by
  constructor
  · unfold benchmark_bandwidth test_urls
    rw [benchAux_cons]
    dsimp only [zeroByteOracle]
    rw [if_pos (by norm_num : (0 : ℚ) < 1)]
    norm_num
  · exact lt_irrefl 0

/-- C3 (amended): `benchmark_bandwidth` returns `none` whenever the
download fails (request error, unreadable body) or the elapsed time is not
positive, and on a successful download with positive elapsed time it
returns `some` of the nonnegative value
`bytes * 8 / (elapsed * 1_000_000)` Mbps, which is positive whenever at
least one byte was received. -/
theorem benchmark_bandwidth_characterized (oracle : String → DlOutcome) :
    (∀ (bytes : Nat) (elapsed : ℚ),
      oracle "https://speed.cloudflare.com/__down?bytes=1000000" =
        DlOutcome.success bytes elapsed →
      0 < elapsed →
      benchmark_bandwidth oracle = some ((bytes : ℚ) * 8 / (elapsed * 1000000))
        ∧ 0 ≤ (bytes : ℚ) * 8 / (elapsed * 1000000)
        ∧ (0 < bytes → 0 < (bytes : ℚ) * 8 / (elapsed * 1000000)))
    ∧ (oracle "https://speed.cloudflare.com/__down?bytes=1000000" = DlOutcome.reqErr →
        benchmark_bandwidth oracle = none)
    ∧ (oracle "https://speed.cloudflare.com/__down?bytes=1000000" = DlOutcome.bodyErr →
        benchmark_bandwidth oracle = none)
    ∧ (∀ (bytes : Nat) (elapsed : ℚ),
        oracle "https://speed.cloudflare.com/__down?bytes=1000000" =
          DlOutcome.success bytes elapsed →
        elapsed ≤ 0 → benchmark_bandwidth oracle = none) := by
  refine ⟨?_, ?_, ?_, ?_⟩
  · intro bytes elapsed ho he
    have hd : (0 : ℚ) < elapsed * 1000000 := mul_pos he (by norm_num)
    have hb : benchmark_bandwidth oracle = some ((bytes : ℚ) * 8 / (elapsed * 1000000)) := by
      unfold benchmark_bandwidth test_urls
      rw [benchAux_cons, ho]
      dsimp only
      rw [if_pos he]
    refine ⟨hb, div_nonneg (by positivity) hd.le, fun hbpos => div_pos ?_ hd⟩
    have hbq : (0 : ℚ) < (bytes : ℚ) := by exact_mod_cast hbpos
    exact mul_pos hbq (by norm_num)
  · intro ho
    unfold benchmark_bandwidth test_urls
    rw [benchAux_cons, ho]
    rfl
  · intro ho
    unfold benchmark_bandwidth test_urls
    rw [benchAux_cons, ho]
    rfl
  · intro bytes elapsed ho he
    unfold benchmark_bandwidth test_urls
    rw [benchAux_cons, ho]
    dsimp only
    rw [if_neg (not_lt.mpr he)]
    rfl

/-- C3 witness: a full 1000000-byte download in 2 seconds yields exactly
4 Mbps. -/
theorem benchmark_bandwidth_characterized_witness :
    benchmark_bandwidth wDlOracle = some 4 := by
  have h := ((benchmark_bandwidth_characterized wDlOracle).1 1000000 2 rfl
    (by norm_num)).1
  rw [h]
  norm_num

/-- C1 counterexample: with the loop body failing and the first release
call (`disable_raw_mode`) failing, `App::run` performs only that first
release call — the remaining release steps (leave alternate screen +
disable mouse capture, show cursor) are skipped rather than attempted. -/
theorem app_run_skips_remaining_release_steps :
    (appRunTeardown (Except.error 7 : Except Nat Unit) (Except.error 3)
      (Except.ok ()) (Except.ok ())).2 = [TermStep.disableRaw]
    ∧ TermStep.leaveAltDisableMouse ∉ (appRunTeardown (Except.error 7 : Except Nat Unit)
        (Except.error 3) (Except.ok ()) (Except.ok ())).2
    ∧ TermStep.showCursor ∉ (appRunTeardown (Except.error 7 : Except Nat Unit)
        (Except.error 3) (Except.ok ()) (Except.ok ())).2 :=
  ⟨rfl, by decide, by decide⟩

/-- C1 (amended): after `run_app` returns, the release calls run in the
fixed order disable raw mode, leave alternate screen + disable mouse
capture, show cursor (the acquisition order, not its reverse); when every
release call succeeds all of them are performed and the loop body's result
(including its error) propagates; when a release call fails, that first
teardown error propagates and the remaining release calls are skipped. -/
theorem app_run_teardown_characterized {ε : Type} (body t1 t2 t3 : Except ε Unit) :
    (t1 = Except.ok () → t2 = Except.ok () → t3 = Except.ok () →
      appRunTeardown body t1 t2 t3 =
        (body, [TermStep.disableRaw, TermStep.leaveAltDisableMouse, TermStep.showCursor]))
    ∧ (∀ e, t1 = Except.error e →
        appRunTeardown body t1 t2 t3 = (Except.error e, [TermStep.disableRaw]))
    ∧ (∀ e, t1 = Except.ok () → t2 = Except.error e →
        appRunTeardown body t1 t2 t3 =
          (Except.error e, [TermStep.disableRaw, TermStep.leaveAltDisableMouse]))
    ∧ (∀ e, t1 = Except.ok () → t2 = Except.ok () → t3 = Except.error e →
        appRunTeardown body t1 t2 t3 =
          (Except.error e,
            [TermStep.disableRaw, TermStep.leaveAltDisableMouse, TermStep.showCursor])) := by
  refine ⟨?_, ?_, ?_, ?_⟩ <;> intros <;> subst_vars <;> rfl

/-- C1 witness: the loop body fails, the second release call fails, its
error propagates and only the first two release calls are performed. -/
theorem app_run_teardown_characterized_witness :
    appRunTeardown (Except.error 7 : Except Nat Unit) (Except.ok ())
      (Except.error 3) (Except.ok ()) =
      (Except.error 3, [TermStep.disableRaw, TermStep.leaveAltDisableMouse]) :=
  (app_run_teardown_characterized (Except.error 7) (Except.ok ())
    (Except.error 3) (Except.ok ())).2.2.1 3 rfl rfl
